import Mathlib

/-
Formal model of the photo_work reconciliation core (catalog / library / trash).

The Rust sources under src/ are embedded shallowly:
  * the SQLite tables catalog(hash, path) and library(hash, path) become two
    lists inside a Store structure; a transaction is modelled by computing the
    new table value and either committing it (returning the new Store) or
    dropping it (returning the original Store);
  * file-system paths are modelled as lists of components obtained by
    splitting the path string on the separator, mirroring how Rust Path
    methods (parent, file_name, file_stem, extension) act on components;
  * the file system itself is modelled as a set of paths for the prune
    commands, and as a map from path to content digest for the import
    command; std::fs::copy is given its resulting destination digest by an
    oracle (a faithful copy writes the source digest, a corrupted copy any
    other value);
  * the EXIF collaborator (capture_date) is an oracle from catalog path to
    an optional capture date, per the spec interface in section 6;
  * error strings are kept as simple constants; the Rust messages that
    interpolate values are represented by a fixed representative text.
-/

namespace PhotoWork

/-! ## Path model -/

/-- Splits a list of characters on the separator character, mirroring how a
Rust path string is decomposed into components. -/
def splitSlashAux : List Char → List Char → List String
  | [], acc => [String.mk acc.reverse]
  | c :: cs, acc =>
    if c = '/' then String.mk acc.reverse :: splitSlashAux cs []
    else splitSlashAux cs (c :: acc)

/-- Components of a path string: split on the separator, dropping empty and
current-directory components exactly as Rust Path::components does. -/
def comps (s : String) : List String :=
  (splitSlashAux s.data []).filter (fun c => !(c == "" || c == "."))

/-- Rust Path::file_name on a component list: the last component, unless it is
the parent-directory component or the path is empty. -/
def fileNameC (l : List String) : Option String :=
  match l.getLast? with
  | none => none
  | some s => if s == ".." then none else some s

/-- Rust Path::parent on a component list: drop the last component; none for
an empty path. -/
def parentC (l : List String) : Option (List String) :=
  match l with
  | [] => none
  | _ => some l.dropLast

/-- Index of the last dot in a file name, if any. -/
def lastDotIdx (cs : List Char) : Option Nat :=
  (List.range cs.length).foldl
    (fun acc i => if cs.getD i ' ' = '.' then some i else acc) none

/-- Rust file_stem and extension of one file-name component: split at the
final dot; a name whose only dot is the leading one has no extension. -/
def stemExt (name : String) : String × Option String :=
  match lastDotIdx name.data with
  | none => (name, none)
  | some 0 => (name, none)
  | some i => (String.mk (name.data.take i), some (String.mk (name.data.drop (i + 1))))

/-- Rust Path::file_stem on a component list. -/
def fileStemC (l : List String) : Option String :=
  (fileNameC l).map (fun n => (stemExt n).1)

/-- Rust Path::extension on a component list. -/
def extensionC (l : List String) : Option String :=
  (fileNameC l).bind (fun n => (stemExt n).2)

/-- Rust PathBuf::set_extension applied to a freshly pushed stem: the file
name the import placement writes. -/
def withExt (stem ext : String) : String :=
  if ext == "" then stem else stem ++ "." ++ ext

/-- Boolean prefix test on path strings; models the SQL pattern
LIKE p-with-percent appended, taking the given argument as a literal prefix
(metacharacters inside the argument and ASCII case folding of SQLite LIKE are
outside the model). -/
def strStartsWith (s pfx : String) : Bool := pfx.data.isPrefixOf s.data

/-! ## Data model: entries and the metadata store -/

/-- Row of the catalog table, src/src/database/catalog.rs. -/
structure CatalogEntry where
  sha256 : String
  path : String
deriving DecidableEq, Repr

/-- Row of the library table, src/src/database/library_entry.rs; the path is
kept in component form. -/
structure LibraryEntry where
  sha256 : String
  path : List String
deriving DecidableEq, Repr

/-- The embedded relational store: table catalog(hash, path) and table
library(hash, path). -/
structure Store where
  catalog : List CatalogEntry
  library : List LibraryEntry
deriving DecidableEq, Repr

def persistMismatchMsg : String :=
  "Database insert count does not match files copied. Files left in place."

def libraryConflictMsg : String := "UNIQUE constraint failed: library.hash"

def catalogConflictMsg : String := "UNIQUE constraint failed: catalog.path"

/-! ## library.rs: insert and persist -/

/-- One execution of INSERT INTO library (hash, path). Modelled from the spec:
the migrations DDL is not under src/; section 6 fixes hash unique in library,
so a row whose hash is already present fails the statement, otherwise exactly
one row is inserted. -/
def libraryExecuteInsert (rows : List LibraryEntry) (e : LibraryEntry) :
    Except String (List LibraryEntry) :=
  if rows.any (fun r => r.sha256 == e.sha256) then .error libraryConflictMsg
  else .ok (rows ++ [e])

/-- library_insert_all, src/src/database/library.rs: loops the prepared insert
over the batch inside the open transaction, accumulating the count of rows
affected; the first statement error aborts the loop. -/
def library_insert_all (rows : List LibraryEntry) :
    List LibraryEntry → Except String (List LibraryEntry × Nat)
  | [] => .ok (rows, 0)
  | e :: es =>
    match libraryExecuteInsert rows e with
    | .error m => .error m
    | .ok rows1 =>
      match library_insert_all rows1 es with
      | .error m => .error m
      | .ok (rows2, c) => .ok (rows2, c + 1)

/-- Number of rows the batch actually inserts into the transaction before the
first statement failure. -/
def insertedCount (rows : List LibraryEntry) : List LibraryEntry → Nat
  | [] => 0
  | e :: es =>
    match libraryExecuteInsert rows e with
    | .error _ => 0
    | .ok rows1 => insertedCount rows1 es + 1

/-- persist_library_entries, src/src/database/library.rs: commits when the
insert count equals the batch length, otherwise returns the mismatch error
with the transaction dropped (rolled back). -/
def persist_library_entries (s : Store) (entries : List LibraryEntry) :
    Except String Nat × Store :=
  match library_insert_all s.library entries with
  | .ok (rows, c) =>
    if c = entries.length then (.ok c, { s with library := rows })
    else (.error persistMismatchMsg, s)
  | .error _ => (.error persistMismatchMsg, s)

/-- persist_library_entries of src/src/command/import.rs: the statement error
propagates as itself; a count mismatch rolls back and reports the mismatch. -/
def import_persist (s : Store) (entries : List LibraryEntry) :
    Except String Nat × Store :=
  match library_insert_all s.library entries with
  | .ok (rows, c) =>
    if c = entries.length then (.ok c, { s with library := rows })
    else (.error persistMismatchMsg, s)
  | .error m => (.error m, s)

/-! ## catalog.rs: insert, persist and the read-side queries -/

/-- One execution of INSERT INTO catalog (hash, path). Modelled from the spec:
the migrations DDL is not under src/; section 6 fixes path unique in catalog. -/
def catalogExecuteInsert (rows : List CatalogEntry) (e : CatalogEntry) :
    Except String (List CatalogEntry) :=
  if rows.any (fun r => r.path == e.path) then .error catalogConflictMsg
  else .ok (rows ++ [e])

/-- catalog_insert_all, src/src/database/catalog.rs lines 52-59. -/
def catalog_insert_all (rows : List CatalogEntry) :
    List CatalogEntry → Except String (List CatalogEntry × Nat)
  | [] => .ok (rows, 0)
  | e :: es =>
    match catalogExecuteInsert rows e with
    | .error m => .error m
    | .ok rows1 =>
      match catalog_insert_all rows1 es with
      | .error m => .error m
      | .ok (rows2, c) => .ok (rows2, c + 1)

/-- persist_catalog_entries, src/src/database/catalog.rs lines 38-50: Ok
commits, any error is returned with the transaction dropped (rolled back). -/
def persist_catalog_entries (s : Store) (entries : List CatalogEntry) :
    Except String Nat × Store :=
  match catalog_insert_all s.catalog entries with
  | .ok (rows, c) => (.ok c, { s with catalog := rows })
  | .error m => (.error m, s)

/-- Keeps the first row of each hash group, dropping later rows of an already
seen hash; the helper carries the hashes seen so far. -/
def dedupByHashGo (seen : List String) : List CatalogEntry → List CatalogEntry
  | [] => []
  | e :: es =>
    if e.sha256 ∈ seen then dedupByHashGo seen es
    else e :: dedupByHashGo (e.sha256 :: seen) es

/-- GROUP BY catalog.hash over an already filtered row list: one
representative row per hash (SQLite picks an arbitrary row of the group; the
model picks the first in row order). -/
def dedupByHash (l : List CatalogEntry) : List CatalogEntry := dedupByHashGo [] l

/-- select_from_catalog, src/src/database/catalog.rs lines 61-78: catalog rows
whose path matches the prefix pattern, left-joined against library on hash and
kept only when no library row matches, grouped by hash. -/
def select_from_catalog (s : Store) (pfx : String) : List CatalogEntry :=
  dedupByHash (s.catalog.filter
    (fun e => strStartsWith e.path pfx
      && !(s.library.any (fun le => le.sha256 == e.sha256))))

/-- Number of catalog rows carrying the given hash. -/
def countHash (catalog : List CatalogEntry) (h : String) : Nat :=
  (catalog.filter (fun e => e.sha256 == h)).length

/-- Structural duplicate removal on hash strings (keeps the last occurrence;
only the member set matters to the queries built on it). -/
def dedupStr : List String → List String
  | [] => []
  | x :: xs => if x ∈ xs then dedupStr xs else x :: dedupStr xs

/-- The hashes carried by more than one catalog row. -/
def dupHashes (catalog : List CatalogEntry) : List String :=
  (dedupStr (catalog.map (fun e => e.sha256))).filter
    (fun h => decide (1 < countHash catalog h))

/-- Ascending sort of hash strings, modelling ORDER BY catalog.hash. -/
def charListLe : List Char → List Char → Bool
  | [], _ => true
  | _ :: _, [] => false
  | a :: as, b :: bs => if a < b then true else if b < a then false else charListLe as bs

def insertSorted (x : String) : List String → List String
  | [] => [x]
  | y :: ys => if charListLe x.data y.data then x :: y :: ys else y :: insertSorted x ys

def sortHashes (l : List String) : List String := l.foldr insertSorted []

/-- find_duplicates, src/src/database/catalog.rs lines 80-93: SELECT hash,
path FROM catalog GROUP BY hash HAVING COUNT(path) > 1 ORDER BY hash. One row
per duplicated hash, carrying one representative path of the group (SQLite
picks an arbitrary row; the model picks the first in row order). -/
def find_duplicates (s : Store) : List CatalogEntry :=
  (sortHashes (dupHashes s.catalog)).filterMap
    (fun h => s.catalog.find? (fun e => e.sha256 == h))

/-- Modelled from the spec: find_duplicate_digests returns every digest with
more than one catalog path, grouped (the grouped variant prune.rs calls is
not among the files under src/). -/
def find_duplicates_grouped (catalog : List CatalogEntry) :
    List (String × List CatalogEntry) :=
  (dupHashes catalog).map (fun h => (h, catalog.filter (fun e => e.sha256 == h)))

/-- Modelled from the spec: find_already_in_library returns every catalog row
whose digest also exists in the library (the function prune.rs calls as
find_already_imported is not among the files under src/). -/
def find_already_imported (s : Store) : List CatalogEntry :=
  s.catalog.filter (fun e => s.library.any (fun le => le.sha256 == e.sha256))

/-- Modelled from the spec: remove_catalog_entries deletes the given rows,
idempotent on already absent rows (the function prune.rs calls is not among
the files under src/). -/
def remove_catalog_entries (s : Store) (entries : List CatalogEntry) : Store :=
  { s with catalog := s.catalog.filter (fun e => !(entries.contains e)) }

/-! ## library_entry.rs: date placement and the collision probe -/

/-- Capture date extracted by the EXIF collaborator. -/
structure Date where
  year : Nat
  month : Nat
  day : Nat
deriving DecidableEq, Repr

/-- date_based_path, src/src/database/library_entry.rs: year/month/day with
unpadded decimal components. -/
def date_based_path (d : Date) : List String :=
  [Nat.repr d.year, Nat.repr d.month, Nat.repr d.day]

/-- build_file_name, src/src/database/library_entry.rs. -/
def build_file_name (stem suffix : String) : String := stem ++ suffix

/-- The iterator (1..).map of unused_filename: its next() always yields the
next suffixed name, never none. -/
def namesNext (stem : String) (i : Nat) : Option String :=
  some (build_file_name stem ("_" ++ Nat.repr (i + 1)))

/-- The candidate the probe holds after i replacements: the base name for
i = 0, then stem_1, stem_2, and so on, extension preserved. -/
def nthCandidate (base : List String) (stem ext : String) : Nat → List String
  | 0 => base ++ [withExt stem ext]
  | i + 1 => base ++ [withExt (build_file_name stem ("_" ++ Nat.repr (i + 1))) ext]

/-- Outcome of the probe loop under a finite iteration budget. -/
inductive ProbeResult where
  | found (p : List String)
  | noUsableName
  | stillRunning
deriving DecidableEq, Repr

/-- The while loop of unused_filename, src/src/database/library_entry.rs lines
56-70: while the current candidate exists, take the next suffixed name from
the iterator; return the error only when the iterator is exhausted. The fuel
argument counts loop iterations the model is allowed to run; the Rust loop
has no such bound, so stillRunning stands for a probe that is still going. -/
def probeLoopRun (occ : List String → Bool) (base : List String) (stem ext : String) :
    Nat → Nat → ProbeResult
  | _, 0 => .stillRunning
  | i, fuel + 1 =>
    if occ (nthCandidate base stem ext i) then
      match namesNext stem i with
      | some _ => probeLoopRun occ base stem ext (i + 1) fuel
      | none => .noUsableName
    else .found (nthCandidate base stem ext i)

/-- unused_filename, src/src/database/library_entry.rs lines 56-70, run under
an iteration budget. -/
def unused_filename (occ : List String → Bool) (base : List String)
    (stem ext : String) (fuel : Nat) : ProbeResult :=
  probeLoopRun occ base stem ext 0 fuel

/-- find_unused_library_path, src/src/database/library_entry.rs lines 48-54:
requires a file stem and a file extension, then probes under the date path. -/
def find_unused_library_path (occ : List String → Bool) (fuel : Nat)
    (p : List String) (d : Date) : Except String (List String) :=
  match fileStemC p with
  | none => .error "Expected a file stem"
  | some stem =>
    match extensionC p with
    | none => .error "Expected a file extension"
    | some ext =>
      match unused_filename occ (date_based_path d) stem ext fuel with
      | .found q => .ok q
      | .noUsableName => .error "No unused file name found in the library. Aborting."
      | .stillRunning => .error "probe iteration budget of the model exhausted"

/-! ## import.rs: copy, verify, persist -/

/-- File system for the import command: a finite map from path to the digest
of the content stored there. -/
abbrev IFS : Type := List (List String × String)

def lookupFS (fs : IFS) (p : List String) : Option String :=
  (List.find? (fun kv => kv.1 == p) fs).map (fun kv => kv.2)

def insertFS (fs : IFS) (p : List String) (dg : String) : IFS :=
  (List.filter (fun kv => !(kv.1 == p)) fs) ++ [(p, dg)]

/-- TryFrom CatalogEntry for LibraryEntry, src/src/database/library_entry.rs
lines 33-46: reads the capture date through the EXIF oracle and derives the
placement; the sha256 of the new library entry is copied from the catalog
entry unchanged. -/
def LibraryEntry.tryFrom (exif : String → Option Date) (fs : IFS) (fuel : Nat)
    (e : CatalogEntry) : Except String LibraryEntry :=
  match exif e.path with
  | none => .error "DateTimeOriginal tag not found"
  | some d =>
    match find_unused_library_path (fun q => (lookupFS fs q).isSome) fuel (comps e.path) d with
    | .ok p => .ok ⟨e.sha256, p⟩
    | .error m => .error m

/-- copy_catalog_entry, src/src/command/import.rs lines 72-90: creates parent
directories (a no-op on the file map), copies the source to the library
destination, then compares the hash argument with the sha256 field of the
library entry. The digest written at the destination is supplied by the w
oracle (a faithful copy writes the source digest, a corrupted copy anything
else); note the comparison reads neither the file system nor w. -/
def copy_catalog_entry (w : List String → String) (fs : IFS) (src : List String)
    (le : LibraryEntry) (hash : String) : Except String LibraryEntry × IFS :=
  match lookupFS fs src with
  | none => (.error "IoError: copy source missing", fs)
  | some _ =>
    let fs1 := insertFS fs le.path (w le.path)
    if hash == le.sha256 then (.ok le, fs1)
    else (.error "sha256 does not match copied destination. Aborting.", fs1)

/-- try_copy_catalog_entry, src/src/command/import.rs lines 109-125: fails
when the destination already exists, otherwise copies and checks. -/
def try_copy_catalog_entry (w : List String → String) (fs : IFS)
    (src : List String) (le : LibraryEntry) (hash : String) :
    Except String LibraryEntry × IFS :=
  if (lookupFS fs le.path).isSome then (.error "destination already exists.", fs)
  else copy_catalog_entry w fs src le hash

/-- One candidate of the import loop, src/src/command/import.rs lines 54-70:
LibraryEntry::try_from and-then try_copy_catalog_entry with the hash taken
from the same catalog entry; an error drops the candidate (filter_map). -/
def importOne (exif : String → Option Date) (w : List String → String)
    (fuel : Nat) (fs : IFS) (e : CatalogEntry) : IFS × Option LibraryEntry :=
  match LibraryEntry.tryFrom exif fs fuel e with
  | .error _ => (fs, none)
  | .ok le =>
    match try_copy_catalog_entry w fs (comps e.path) le e.sha256 with
    | (.ok le2, fs1) => (fs1, some le2)
    | (.error _, fs1) => (fs1, none)

/-- The import loop over the selected candidates, threading the file system
and collecting the entries that survive copy and check. -/
def importFold (exif : String → Option Date) (w : List String → String)
    (fuel : Nat) (fs : IFS) : List CatalogEntry → IFS × List LibraryEntry
  | [] => (fs, [])
  | e :: es =>
    let r := importOne exif w fuel fs e
    let rest := importFold exif w fuel r.1 es
    (rest.1, match r.2 with
      | some le => le :: rest.2
      | none => rest.2)

/-- The import command, src/src/command/import.rs: select the candidates,
copy each, submit the survivors to persist_library_entries of import.rs. -/
def importCmd (exif : String → Option Date) (w : List String → String)
    (fuel : Nat) (fs : IFS) (s : Store) (pfx : String) :
    (Except String Nat × Store) × IFS × List LibraryEntry :=
  let cands := select_from_catalog s pfx
  let folded := importFold exif w fuel fs cands
  (import_persist s folded.2, folded.1, folded.2)

/-! ## prune.rs: quarantine -/

deriving instance DecidableEq for Except

/-- File system for the prune command: the set of existing file paths. -/
abbrev PFS : Type := List (List String)

def memPFS (fs : PFS) (p : List String) : Bool := fs.contains p

def insertPFS (fs : PFS) (p : List String) : PFS :=
  if memPFS fs p then fs else fs ++ [p]

def erasePFS (fs : PFS) (p : List String) : PFS :=
  fs.filter (fun q => !(q == p))

/-- One file-system side effect of the quarantine mover, in the order the
code performs them. -/
inductive Event where
  | copy (src dst : List String)
  | delete (p : List String)
  | removeRows (rows : List CatalogEntry)
deriving DecidableEq, Repr

/-- trash_path, src/src/command/prune.rs lines 120-131: the flattened trash
destination, keeping only the immediate parent directory name and the file
name. -/
def trash_path (e : CatalogEntry) : Except String (List String) :=
  let op := comps e.path
  match (parentC op).bind fileNameC with
  | none => .error "Invalid File"
  | some dir =>
    match fileNameC op with
    | none => .error "Invalid File"
    | some fn => .ok [".trash", dir, fn]

/-- Total companion of trash_path used to phrase traces. -/
def trashPathD (e : CatalogEntry) : List String :=
  match trash_path e with
  | .ok t => t
  | .error _ => []

def exceptIsOk {ε α : Type} : Except ε α → Bool
  | .ok _ => true
  | .error _ => false

/-- move_to_trash, src/src/command/prune.rs lines 111-118: compute the trash
destination, create its parent directories, copy the file, then delete the
original only after the copy succeeded. -/
def move_to_trash (fs : PFS) (e : CatalogEntry) :
    Except String (PFS × List Event) :=
  match trash_path e with
  | .error m => .error m
  | .ok tp =>
    match parentC tp with
    | none => .error "Invalid Directory"
    | some _ =>
      let src := comps e.path
      if memPFS fs src then
        .ok (erasePFS (insertPFS fs tp) src, [.copy src tp, .delete src])
      else .error "IoError: copy source missing"

/-- Outcome of relocating a list of entries one after the other with the
question-mark operator: the first failure stops the loop, keeping the file
system and the trace accumulated so far. -/
structure MoveOut where
  result : Except String Unit
  fs : PFS
  trace : List Event
deriving DecidableEq, Repr

def moveAll (fs : PFS) : List CatalogEntry → MoveOut
  | [] => ⟨.ok (), fs, []⟩
  | e :: es =>
    match move_to_trash fs e with
    | .ok (fs1, evs) =>
      let r := moveAll fs1 es
      ⟨r.result, r.fs, evs ++ r.trace⟩
    | .error m => ⟨.error m, fs, []⟩

/-- Outcome of a prune command: its result, the store, the file system and
the ordered trace of side effects. -/
structure PruneOut where
  result : Except String Unit
  store : Store
  fs : PFS
  trace : List Event
deriving DecidableEq, Repr

/-- The entries the duplicates policy selects: every row of each duplicate
group but the first. -/
def selectedDuplicates (catalog : List CatalogEntry) : List CatalogEntry :=
  (find_duplicates_grouped catalog).flatMap (fun g => g.2.drop 1)

/-- The pair of events a successful relocation of one entry appends. -/
def moveEvents (e : CatalogEntry) : List Event :=
  [.copy (comps e.path) (trashPathD e), .delete (comps e.path)]

/-- prune_catalog_duplicates, src/src/command/prune.rs lines 53-84: group the
duplicates, move every group member but the first to trash, then remove all
their catalog rows in one batch call; a move error propagates immediately. -/
def prune_catalog_duplicates (s : Store) (fs : PFS) : PruneOut :=
  let dups := find_duplicates_grouped s.catalog
  if dups.isEmpty then ⟨.ok (), s, fs, []⟩
  else
    let sel := selectedDuplicates s.catalog
    let m := moveAll fs sel
    match m.result with
    | .ok _ => ⟨.ok (), remove_catalog_entries s sel, m.fs, m.trace ++ [.removeRows sel]⟩
    | .error msg => ⟨.error msg, s, m.fs, m.trace⟩

/-- prune_imported_catalog_entries, src/src/command/prune.rs lines 86-109. -/
def prune_imported_catalog_entries (s : Store) (fs : PFS) : PruneOut :=
  let imp := find_already_imported s
  if imp.isEmpty then ⟨.ok (), s, fs, []⟩
  else
    let m := moveAll fs imp
    match m.result with
    | .ok _ => ⟨.ok (), remove_catalog_entries s imp, m.fs, m.trace ++ [.removeRows imp]⟩
    | .error msg => ⟨.error msg, s, m.fs, m.trace⟩

/-! ## Concrete inputs used by witnesses and counterexamples -/

/-- Catalog with two rows sharing digest H1. -/
def dupStore : Store := ⟨[⟨"H1", "a/x.jpg"⟩, ⟨"H1", "a/y.jpg"⟩], []⟩

def c4store : Store := ⟨[], [⟨"1", ["lib", "a.jpg"]⟩]⟩

def c4batch : List LibraryEntry := [⟨"1", ["lib", "b.jpg"]⟩]

def c5store : Store := ⟨[], [⟨"2", ["lib", "c.jpg"]⟩]⟩

def c5batch : List LibraryEntry := [⟨"9", ["x"]⟩, ⟨"2", ["y"]⟩]

def c6store : Store := ⟨[⟨"1", "a"⟩], []⟩

def c6batch : List CatalogEntry := [⟨"2", "b"⟩, ⟨"3", "a"⟩]

def c7store : Store := ⟨[⟨"D", "p/q/a.png"⟩, ⟨"D", "p/q/b.png"⟩], []⟩

def c7fs : PFS := [["p", "q", "a.png"], ["p", "q", "b.png"]]

def dateBase : List String := ["2023", "5", "18"]

/-- A disk on which every probed name is in use. -/
def allOccupied : List String → Bool := fun _ => true

/-- A disk on which only the base candidate name is in use. -/
def c8occ : List String → Bool := fun p => p == nthCandidate dateBase "x" "jpg" 0

/-- The probe neither finds a name nor returns the no-usable-name error under
any iteration budget: it is still probing after every finite number of loop
iterations. -/
def probesForeverOn (occ : List String → Bool) (base : List String)
    (stem ext : String) : Prop :=
  ∀ fuel, unused_filename occ base stem ext fuel = ProbeResult.stillRunning

def c9good : CatalogEntry := ⟨"1", "d/a/x.png"⟩

def c9bad : CatalogEntry := ⟨"2", "bad.png"⟩

def c9later : CatalogEntry := ⟨"3", "d/a/z.png"⟩

def c9store : Store :=
  ⟨[c9good, c9bad, c9later], [⟨"1", ["l1"]⟩, ⟨"2", ["l2"]⟩, ⟨"3", ["l3"]⟩]⟩

def c9fs : PFS := [["d", "a", "x.png"], ["bad.png"], ["d", "a", "z.png"]]

def c1exif : String → Option Date :=
  fun p => if p == "d/photos/img.jpg" then some ⟨2023, 5, 18⟩ else none

/-- Oracle for a copy whose destination ends up holding content with a digest
different from the source digest (a corrupted copy). -/
def corruptWrite : List String → String := fun _ => "CORRUPTED"

def c1fs : IFS := [(["d", "photos", "img.jpg"], "HASH1")]

def c1store : Store := ⟨[⟨"HASH1", "d/photos/img.jpg"⟩], []⟩

def c1dest : List String := ["2023", "5", "18", "img.jpg"]

def c10exif : String → Option Date := fun _ => some ⟨2024, 1, 2⟩

def c10e : CatalogEntry := ⟨"H7", "d/photos/noext"⟩

def c10w : List String → String := fun _ => "W"

/-! ## Helper lemmas: library and catalog batch inserts -/

theorem library_insert_all_error_of_count_ne (entries : List LibraryEntry) :
    ∀ rows, insertedCount rows entries ≠ entries.length →
      ∃ m, library_insert_all rows entries = .error m := by
  induction entries with
  | nil => intro rows h; exact absurd rfl h
  | cons e es ih =>
    intro rows h
    cases hx : libraryExecuteInsert rows e with
    | error m => exact ⟨m, by simp [library_insert_all, hx]⟩
    | ok rows1 =>
      have h1 : insertedCount rows1 es ≠ es.length := by
        intro hc
        exact h (by simp [insertedCount, hx, hc])
      obtain ⟨m, hm⟩ := ih rows1 h1
      exact ⟨m, by simp [library_insert_all, hx, hm]⟩

theorem library_insert_all_conflict (entries : List LibraryEntry) :
    ∀ rows (e : LibraryEntry), e ∈ entries →
      rows.any (fun r => r.sha256 == e.sha256) = true →
      ∃ m, library_insert_all rows entries = .error m := by
  induction entries with
  | nil => intro rows e he _; cases he
  | cons a es ih =>
    intro rows e he hany
    cases hx : libraryExecuteInsert rows a with
    | error m => exact ⟨m, by simp [library_insert_all, hx]⟩
    | ok rows1 =>
      rcases List.mem_cons.mp he with rfl | hes
      · exfalso
        have : libraryExecuteInsert rows e = .error libraryConflictMsg := by
          simp [libraryExecuteInsert, hany]
        rw [this] at hx
        cases hx
      · have hrows1 : rows1 = rows ++ [a] := by
          by_cases hc : rows.any (fun r => r.sha256 == a.sha256) = true
          · simp [libraryExecuteInsert, hc] at hx
          · simp [libraryExecuteInsert, hc] at hx
            exact hx.symm
        have hany1 : rows1.any (fun r => r.sha256 == e.sha256) = true := by
          subst hrows1
          simp [List.any_append]
          left
          obtain ⟨r, hr, heq⟩ := (List.any_eq_true).mp hany
          exact ⟨r, hr, eq_of_beq heq⟩
        obtain ⟨m, hm⟩ := ih rows1 e hes hany1
        exact ⟨m, by simp [library_insert_all, hx, hm]⟩

theorem catalog_insert_all_conflict (entries : List CatalogEntry) :
    ∀ rows (e : CatalogEntry), e ∈ entries →
      rows.any (fun r => r.path == e.path) = true →
      catalog_insert_all rows entries = .error catalogConflictMsg := by
  induction entries with
  | nil => intro rows e he _; cases he
  | cons a es ih =>
    intro rows e he hany
    cases hx : catalogExecuteInsert rows a with
    | error m =>
      have hm : m = catalogConflictMsg := by
        by_cases hc : rows.any (fun r => r.path == a.path) = true
        · simp [catalogExecuteInsert, hc] at hx
          exact hx.symm
        · simp [catalogExecuteInsert, hc] at hx
      subst hm
      simp [catalog_insert_all, hx]
    | ok rows1 =>
      rcases List.mem_cons.mp he with rfl | hes
      · exfalso
        have : catalogExecuteInsert rows e = .error catalogConflictMsg := by
          simp [catalogExecuteInsert, hany]
        rw [this] at hx
        cases hx
      · have hrows1 : rows1 = rows ++ [a] := by
          by_cases hc : rows.any (fun r => r.path == a.path) = true
          · simp [catalogExecuteInsert, hc] at hx
          · simp [catalogExecuteInsert, hc] at hx
            exact hx.symm
        have hany1 : rows1.any (fun r => r.path == e.path) = true := by
          subst hrows1
          simp [List.any_append]
          left
          obtain ⟨r, hr, heq⟩ := (List.any_eq_true).mp hany
          exact ⟨r, hr, eq_of_beq heq⟩
        have hm := ih rows1 e hes hany1
        simp [catalog_insert_all, hx, hm]

/-! ## C4: persist mismatch rolls back and errors -/

/-- C4: for every batch of library entries, if the number of rows the insert
actually adds inside the transaction differs from the number of entries
submitted, persist_library_entries returns the mismatch error and the store
is unchanged (the transaction is rolled back, no library row of the batch
persists). -/
theorem C4_persist_mismatch_rolls_back (s : Store) (entries : List LibraryEntry)
    (h : insertedCount s.library entries ≠ entries.length) :
    persist_library_entries s entries = (.error persistMismatchMsg, s) := by
  obtain ⟨m, hm⟩ := library_insert_all_error_of_count_ne entries s.library h
  simp [persist_library_entries, hm]

/-- C4 witness: a batch whose single entry collides on digest inserts zero of
one rows; persist reports the mismatch error and the store is unchanged. -/
theorem C4_witness :
    persist_library_entries c4store c4batch = (.error persistMismatchMsg, c4store) :=
  C4_persist_mismatch_rolls_back c4store c4batch (by decide)

/-! ## C5: duplicate library digest fails the whole batch -/

/-- C5: a batch containing an entry whose digest is already present in the
library fails persist_library_entries with an error, and the store afterward
equals the store before (none of the batch persists). -/
theorem C5_library_duplicate_digest_fails (s : Store) (entries : List LibraryEntry)
    (e : LibraryEntry) (he : e ∈ entries)
    (hd : s.library.any (fun r => r.sha256 == e.sha256) = true) :
    persist_library_entries s entries = (.error persistMismatchMsg, s) := by
  obtain ⟨m, hm⟩ := library_insert_all_conflict entries s.library e he hd
  simp [persist_library_entries, hm]

/-- C5 witness: the second entry of the batch repeats a digest already in the
library; nothing persists and the call errors. -/
theorem C5_witness :
    persist_library_entries c5store c5batch = (.error persistMismatchMsg, c5store) :=
  C5_library_duplicate_digest_fails c5store c5batch ⟨"2", ["y"]⟩ (by decide) (by decide)

/-! ## C6: catalog path conflict rolls back the whole batch -/

/-- C6: a batch containing an entry whose path already exists in the catalog
fails persist_catalog_entries with the conflict error and zero of the batch
persists, the entries inserted before the conflicting one included (the
transaction is dropped, the store is unchanged). -/
theorem C6_catalog_conflict_rolls_back (s : Store) (entries : List CatalogEntry)
    (e : CatalogEntry) (he : e ∈ entries)
    (hp : s.catalog.any (fun r => r.path == e.path) = true) :
    persist_catalog_entries s entries = (.error catalogConflictMsg, s) := by
  have hm := catalog_insert_all_conflict entries s.catalog e he hp
  simp [persist_catalog_entries, hm]

/-- C6 witness: the second of two entries conflicts on path; the first one
does not persist either and the call errors. -/
theorem C6_witness :
    persist_catalog_entries c6store c6batch = (.error catalogConflictMsg, c6store) :=
  C6_catalog_conflict_rolls_back c6store c6batch ⟨"3", "a"⟩ (by decide) (by decide)

/-! ## Helper lemmas: hash grouping and deduplication -/

theorem dedupByHashGo_subset :
    ∀ (l : List CatalogEntry) (seen : List String) (x : CatalogEntry),
      x ∈ dedupByHashGo seen l → x ∈ l := by
  intro l
  induction l with
  | nil => intro seen x hx; cases hx
  | cons e es ih =>
    intro seen x hx
    by_cases h : e.sha256 ∈ seen
    · simp only [dedupByHashGo, if_pos h] at hx
      exact List.mem_cons_of_mem e (ih seen x hx)
    · simp only [dedupByHashGo, if_neg h] at hx
      rcases List.mem_cons.mp hx with rfl | hx2
      · exact List.mem_cons_self _ _
      · exact List.mem_cons_of_mem e (ih _ x hx2)

theorem dedupByHashGo_sha_not_seen :
    ∀ (l : List CatalogEntry) (seen : List String) (x : CatalogEntry),
      x ∈ dedupByHashGo seen l → x.sha256 ∉ seen := by
  intro l
  induction l with
  | nil => intro seen x hx; cases hx
  | cons e es ih =>
    intro seen x hx
    by_cases h : e.sha256 ∈ seen
    · simp only [dedupByHashGo, if_pos h] at hx
      exact ih seen x hx
    · simp only [dedupByHashGo, if_neg h] at hx
      rcases List.mem_cons.mp hx with rfl | hx2
      · exact h
      · intro hbad
        exact ih _ x hx2 (List.mem_cons_of_mem _ hbad)

theorem dedupByHashGo_nodup :
    ∀ (l : List CatalogEntry) (seen : List String),
      ((dedupByHashGo seen l).map (fun e => e.sha256)).Nodup := by
  intro l
  induction l with
  | nil => intro seen; simp [dedupByHashGo]
  | cons e es ih =>
    intro seen
    by_cases h : e.sha256 ∈ seen
    · simp only [dedupByHashGo, if_pos h]
      exact ih seen
    · simp only [dedupByHashGo, if_neg h, List.map_cons]
      refine List.nodup_cons.mpr ⟨?_, ih _⟩
      intro hmem
      obtain ⟨y, hy, hsha⟩ := List.mem_map.mp hmem
      exact dedupByHashGo_sha_not_seen es _ y hy (by rw [hsha]; exact List.mem_cons_self _ _)

theorem dedupByHashGo_complete :
    ∀ (l : List CatalogEntry) (seen : List String) (x : CatalogEntry),
      x ∈ l → x.sha256 ∉ seen →
      ∃ r, r ∈ dedupByHashGo seen l ∧ r.sha256 = x.sha256 := by
  intro l
  induction l with
  | nil => intro seen x hx; cases hx
  | cons a es ih =>
    intro seen x hx hseen
    rcases List.mem_cons.mp hx with rfl | hes
    · have h : ¬ x.sha256 ∈ seen := hseen
      simp only [dedupByHashGo, if_neg h]
      exact ⟨x, List.mem_cons_self _ _, rfl⟩
    · by_cases h : a.sha256 ∈ seen
      · simp only [dedupByHashGo, if_pos h]
        exact ih seen x hes hseen
      · simp only [dedupByHashGo, if_neg h]
        by_cases hsame : x.sha256 = a.sha256
        · exact ⟨a, List.mem_cons_self _ _, hsame.symm⟩
        · have hnotin : x.sha256 ∉ a.sha256 :: seen := by
            intro hbad
            rcases List.mem_cons.mp hbad with hb | hb
            · exact hsame hb
            · exact hseen hb
          obtain ⟨r, hr, hrs⟩ := ih (a.sha256 :: seen) x hes hnotin
          exact ⟨r, List.mem_cons_of_mem a hr, hrs⟩

theorem mem_dedupStr : ∀ (l : List String) (x : String), x ∈ dedupStr l ↔ x ∈ l := by
  intro l
  induction l with
  | nil => intro x; simp [dedupStr]
  | cons a as ih =>
    intro x
    by_cases h : a ∈ as
    · simp only [dedupStr, if_pos h, ih, List.mem_cons]
      constructor
      · exact fun hx => Or.inr hx
      · rintro (rfl | hx)
        · exact h
        · exact hx
    · simp only [dedupStr, if_neg h, List.mem_cons, ih]

theorem nodup_dedupStr : ∀ (l : List String), (dedupStr l).Nodup := by
  intro l
  induction l with
  | nil => simp [dedupStr]
  | cons a as ih =>
    by_cases h : a ∈ as
    · simp only [dedupStr, if_pos h]; exact ih
    · simp only [dedupStr, if_neg h]
      exact List.nodup_cons.mpr ⟨fun hbad => h ((mem_dedupStr as a).mp hbad), ih⟩

theorem insertSorted_perm (x : String) (l : List String) :
    (insertSorted x l).Perm (x :: l) := by
  induction l with
  | nil => simp [insertSorted]
  | cons y ys ih =>
    by_cases h : charListLe x.data y.data = true
    · simp [insertSorted, h]
    · simp only [insertSorted, Bool.not_eq_true] at h ⊢
      rw [h]
      exact ((ih.cons y).trans (List.Perm.swap x y ys))

theorem sortHashes_perm (l : List String) : (sortHashes l).Perm l := by
  induction l with
  | nil => exact List.Perm.refl _
  | cons x xs ih => exact (insertSorted_perm x (sortHashes xs)).trans (ih.cons x)

theorem mem_sortHashes (l : List String) (x : String) :
    x ∈ sortHashes l ↔ x ∈ l :=
  (sortHashes_perm l).mem_iff

theorem countHash_pos_exists (catalog : List CatalogEntry) (h : String)
    (hc : 0 < countHash catalog h) : ∃ e, e ∈ catalog ∧ e.sha256 = h := by
  have hne : catalog.filter (fun e => e.sha256 == h) ≠ [] := by
    intro hnil
    rw [countHash, hnil] at hc
    exact Nat.lt_irrefl 0 hc
  obtain ⟨e, he⟩ := List.exists_mem_of_ne_nil _ hne
  have := List.mem_filter.mp he
  exact ⟨e, this.1, eq_of_beq this.2⟩

theorem mem_dupHashes (catalog : List CatalogEntry) (h : String) :
    h ∈ dupHashes catalog ↔ 1 < countHash catalog h := by
  constructor
  · intro hmem
    have := List.mem_filter.mp hmem
    exact decide_eq_true_eq.mp this.2
  · intro hc
    refine List.mem_filter.mpr ⟨?_, decide_eq_true_eq.mpr hc⟩
    obtain ⟨e, he, hsha⟩ := countHash_pos_exists catalog h (Nat.lt_trans Nat.zero_lt_one hc)
    exact (mem_dedupStr _ _).mpr (List.mem_map.mpr ⟨e, he, hsha⟩)

theorem nodup_dupHashes (catalog : List CatalogEntry) : (dupHashes catalog).Nodup :=
  (nodup_dedupStr _).filter _

theorem filterMap_find_map_sha (catalog : List CatalogEntry) :
    ∀ (l : List String), (∀ h, h ∈ l → ∃ e, e ∈ catalog ∧ e.sha256 = h) →
      ((l.filterMap (fun h => catalog.find? (fun e => e.sha256 == h))).map
        (fun e => e.sha256)) = l := by
  intro l
  induction l with
  | nil => intro _; simp
  | cons h t ih =>
    intro hall
    obtain ⟨e, he, hsha⟩ := hall h (List.mem_cons_self _ _)
    have hsome : (catalog.find? (fun e => e.sha256 == h)).isSome :=
      List.find?_isSome.mpr ⟨e, he, beq_iff_eq.mpr hsha⟩
    obtain ⟨a, ha⟩ := Option.isSome_iff_exists.mp hsome
    have hpa := List.find?_some ha
    have hasha : a.sha256 = h := eq_of_beq hpa
    simp only [List.filterMap_cons, ha, List.map_cons, hasha]
    rw [ih (fun x hx => hall x (List.mem_cons_of_mem h hx))]

/-! ## C2: find_duplicates -/

/-- C2 counterexample: with two catalog rows a/x.jpg and a/y.jpg sharing
digest H1, find_duplicates returns a single representative row for H1; the
row a/y.jpg shares the duplicated digest yet does not appear in the result,
so the digest is not mapped to all of its catalog entries. -/
theorem C2_counterexample :
    CatalogEntry.mk "H1" "a/y.jpg" ∈ dupStore.catalog
    ∧ find_duplicates dupStore = [⟨"H1", "a/x.jpg"⟩]
    ∧ CatalogEntry.mk "H1" "a/y.jpg" ∉ find_duplicates dupStore := by
  refine ⟨by decide, by decide, by decide⟩

/-- C2 amended: find_duplicates returns exactly the digests with more than
one catalog path, one representative catalog row per such digest (the
returned digests are pairwise distinct), not the full group of paths. -/
theorem C2_find_duplicates_representatives (s : Store) :
    (∀ e, e ∈ find_duplicates s →
      e ∈ s.catalog ∧ 1 < countHash s.catalog e.sha256)
    ∧ (∀ h, 1 < countHash s.catalog h →
      ∃ e, e ∈ find_duplicates s ∧ e.sha256 = h)
    ∧ ((find_duplicates s).map (fun e => e.sha256)).Nodup := by
  refine ⟨?_, ?_, ?_⟩
  · intro e hmem
    obtain ⟨h, hh, hfind⟩ := List.mem_filterMap.mp hmem
    have hpf := List.find?_some hfind
    have hsha : e.sha256 = h := eq_of_beq hpf
    have hdup : 1 < countHash s.catalog h :=
      (mem_dupHashes s.catalog h).mp ((mem_sortHashes _ h).mp hh)
    exact ⟨List.mem_of_find?_eq_some hfind, by rw [hsha]; exact hdup⟩
  · intro h hc
    have hmem : h ∈ sortHashes (dupHashes s.catalog) :=
      (mem_sortHashes _ h).mpr ((mem_dupHashes s.catalog h).mpr hc)
    obtain ⟨e, he, hsha⟩ :=
      countHash_pos_exists s.catalog h (Nat.lt_trans Nat.zero_lt_one hc)
    have hsome : (s.catalog.find? (fun x => x.sha256 == h)).isSome :=
      List.find?_isSome.mpr ⟨e, he, beq_iff_eq.mpr hsha⟩
    obtain ⟨a, ha⟩ := Option.isSome_iff_exists.mp hsome
    have hpa := List.find?_some ha
    exact ⟨a, List.mem_filterMap.mpr ⟨h, hmem, ha⟩, eq_of_beq hpa⟩
  · have hall : ∀ h, h ∈ sortHashes (dupHashes s.catalog) →
        ∃ e, e ∈ s.catalog ∧ e.sha256 = h := by
      intro h hh
      have hc := (mem_dupHashes s.catalog h).mp ((mem_sortHashes _ h).mp hh)
      exact countHash_pos_exists s.catalog h (Nat.lt_trans Nat.zero_lt_one hc)
    rw [find_duplicates, filterMap_find_map_sha s.catalog _ hall]
    exact ((sortHashes_perm _).nodup_iff).mpr (nodup_dupHashes s.catalog)

/-! ## C3: select_from_catalog -/

/-- C3: select_from_catalog returns only catalog rows whose path starts with
the given prefix and whose digest has no library row; every qualifying
catalog row is represented by exactly one returned row of the same digest
(returned digests are pairwise distinct); in particular a catalog row whose
digest is already in the library never appears. -/
theorem C3_select_from_catalog_spec (s : Store) (pfx : String) :
    (∀ e, e ∈ select_from_catalog s pfx →
      e ∈ s.catalog ∧ strStartsWith e.path pfx = true
        ∧ s.library.any (fun le => le.sha256 == e.sha256) = false)
    ∧ (∀ e, e ∈ s.catalog → strStartsWith e.path pfx = true →
        s.library.any (fun le => le.sha256 == e.sha256) = false →
        ∃ r, r ∈ select_from_catalog s pfx ∧ r.sha256 = e.sha256)
    ∧ ((select_from_catalog s pfx).map (fun e => e.sha256)).Nodup := by
  refine ⟨?_, ?_, dedupByHashGo_nodup _ []⟩
  · intro e hmem
    have hf := dedupByHashGo_subset _ [] e hmem
    have := List.mem_filter.mp hf
    have h12 := this.2
    rw [Bool.and_eq_true] at h12
    obtain ⟨h1, h2⟩ := h12
    refine ⟨this.1, h1, ?_⟩
    cases hb : s.library.any (fun le => le.sha256 == e.sha256) with
    | false => rfl
    | true => rw [hb] at h2; cases h2
  · intro e hmem hpfx hlib
    have hf : e ∈ s.catalog.filter
        (fun x => strStartsWith x.path pfx
          && !(s.library.any (fun le => le.sha256 == x.sha256))) := by
      refine List.mem_filter.mpr ⟨hmem, ?_⟩
      rw [hpfx, hlib]
      rfl
    obtain ⟨r, hr, hrs⟩ := dedupByHashGo_complete _ [] e hf (by simp)
    exact ⟨r, hr, hrs⟩

/-! ## Helper lemmas: quarantine moves -/

theorem trash_path_ok_shape (e : CatalogEntry) (tp : List String)
    (ht : trash_path e = .ok tp) :
    ∃ dir fn, (parentC (comps e.path)).bind fileNameC = some dir
      ∧ fileNameC (comps e.path) = some fn
      ∧ tp = [".trash", dir, fn] := by
  simp only [trash_path] at ht
  cases h1 : (parentC (comps e.path)).bind fileNameC with
  | none => rw [h1] at ht; exact Except.noConfusion ht
  | some dir =>
    rw [h1] at ht
    cases h2 : fileNameC (comps e.path) with
    | none => rw [h2] at ht; exact Except.noConfusion ht
    | some fn =>
      rw [h2] at ht
      simp at ht
      exact ⟨dir, fn, rfl, rfl, ht.symm⟩

theorem move_to_trash_ok_parts (fs : PFS) (e : CatalogEntry) (fs1 : PFS)
    (evs : List Event) (h : move_to_trash fs e = .ok (fs1, evs)) :
    ∃ tp, trash_path e = .ok tp
      ∧ evs = [.copy (comps e.path) tp, .delete (comps e.path)]
      ∧ fs1 = erasePFS (insertPFS fs tp) (comps e.path)
      ∧ memPFS fs (comps e.path) = true := by
  cases ht : trash_path e with
  | error m => simp [move_to_trash, ht] at h
  | ok tp =>
    obtain ⟨dir, fn, _, _, rfl⟩ := trash_path_ok_shape e tp ht
    by_cases hm : memPFS fs (comps e.path) = true
    · simp [move_to_trash, ht, parentC, hm] at h
      exact ⟨[".trash", dir, fn], rfl, h.2.symm, h.1.symm, hm⟩
    · simp [move_to_trash, ht, parentC, hm] at h

theorem move_to_trash_error_of_trash_path_error (fs : PFS) (e : CatalogEntry)
    (m : String) (ht : trash_path e = .error m) :
    move_to_trash fs e = .error m := by
  simp [move_to_trash, ht]

theorem moveAll_ok : ∀ (l : List CatalogEntry) (fs : PFS),
    exceptIsOk (moveAll fs l).result = true →
    (moveAll fs l).trace = l.flatMap moveEvents
      ∧ ∀ e ∈ l, exceptIsOk (trash_path e) = true := by
  intro l
  induction l with
  | nil =>
    intro fs _
    exact ⟨by simp [moveAll], by intro e he; cases he⟩
  | cons e es ih =>
    intro fs hok
    cases hmv : move_to_trash fs e with
    | error m => simp [moveAll, hmv, exceptIsOk] at hok
    | ok pr =>
      obtain ⟨fs1, evs⟩ := pr
      simp only [moveAll, hmv] at hok ⊢
      obtain ⟨htr, hall⟩ := ih fs1 hok
      obtain ⟨tp, ht, hevs, _, _⟩ := move_to_trash_ok_parts fs e fs1 evs hmv
      constructor
      · rw [htr, hevs]
        simp [List.flatMap_cons, moveEvents, trashPathD, ht]
      · intro x hx
        rcases List.mem_cons.mp hx with rfl | hxs
        · simp [exceptIsOk, ht]
        · exact hall x hxs

theorem moveAll_fail_at (bad : CatalogEntry) (mb : String)
    (hbad : trash_path bad = .error mb) :
    ∀ (pre post : List CatalogEntry) (fs : PFS),
      exceptIsOk (moveAll fs pre).result = true →
      moveAll fs (pre ++ bad :: post)
        = ⟨.error mb, (moveAll fs pre).fs, (moveAll fs pre).trace⟩ := by
  intro pre
  induction pre with
  | nil =>
    intro post fs _
    have hmv := move_to_trash_error_of_trash_path_error fs bad mb hbad
    simp [moveAll, hmv]
  | cons e pr ih =>
    intro post fs hok
    cases hmv : move_to_trash fs e with
    | error m => simp [moveAll, hmv, exceptIsOk] at hok
    | ok p =>
      obtain ⟨fs1, evs⟩ := p
      simp only [moveAll, hmv] at hok ⊢
      simp only [List.append_eq]
      rw [ih post fs1 hok]

/-! ## C7: quarantine ordering for duplicate pruning -/

/-- C7: when prune_catalog_duplicates succeeds on a non-empty duplicate
selection, its side-effect trace is exactly, for each selected entry in
order, a copy of the original to its flattened trash path immediately
followed by the delete of the original, and after all relocations one single
removeRows batch call; so each entry is copied to trash before its original
is deleted, and its catalog row is removed only after its trashed copy was
created. The store afterward equals the store with exactly the selected rows
removed. -/
theorem C7_prune_duplicates_ordering (s : Store) (fs : PFS)
    (hne : (find_duplicates_grouped s.catalog).isEmpty = false)
    (hok : exceptIsOk (prune_catalog_duplicates s fs).result = true) :
    (prune_catalog_duplicates s fs).trace
      = (selectedDuplicates s.catalog).flatMap moveEvents
        ++ [Event.removeRows (selectedDuplicates s.catalog)]
    ∧ (prune_catalog_duplicates s fs).store
      = remove_catalog_entries s (selectedDuplicates s.catalog)
    ∧ ∀ e ∈ selectedDuplicates s.catalog, exceptIsOk (trash_path e) = true := by
  cases hres : (moveAll fs (selectedDuplicates s.catalog)).result with
  | error m => simp [prune_catalog_duplicates, hne, hres, exceptIsOk] at hok
  | ok u =>
    cases u
    have hmok : exceptIsOk (moveAll fs (selectedDuplicates s.catalog)).result = true := by
      rw [hres]; rfl
    obtain ⟨htr, hall⟩ := moveAll_ok (selectedDuplicates s.catalog) fs hmok
    refine ⟨?_, ?_, hall⟩
    · simp [prune_catalog_duplicates, hne, hres, htr]
    · simp [prune_catalog_duplicates, hne, hres]

/-- C7 witness: two catalog rows share digest D; pruning duplicates succeeds
and the trace is copy, delete, removeRows in that order for the selected
second row. -/
theorem C7_witness :
    (prune_catalog_duplicates c7store c7fs).trace
      = (selectedDuplicates c7store.catalog).flatMap moveEvents
        ++ [Event.removeRows (selectedDuplicates c7store.catalog)]
    ∧ (prune_catalog_duplicates c7store c7fs).store
      = remove_catalog_entries c7store (selectedDuplicates c7store.catalog)
    ∧ ∀ e ∈ selectedDuplicates c7store.catalog, exceptIsOk (trash_path e) = true :=
  C7_prune_duplicates_ordering c7store c7fs (by decide) (by decide)

/-! ## C9: a trash-path failure during imported-entry pruning -/

/-- C9 counterexample: three catalog entries are selected for quarantine; the
first relocates, the second has no parent directory component so its trash
path fails. The run errors out: the third entry is not relocated (its file is
still at its original path and its trash path was never created) and no
catalog row is removed at all, not even the row of the first entry whose file
was already moved to trash. -/
theorem C9_counterexample :
    exceptIsOk (prune_imported_catalog_entries c9store c9fs).result = false
    ∧ c9good ∈ (prune_imported_catalog_entries c9store c9fs).store.catalog
    ∧ [".trash", "a", "x.png"] ∈ (prune_imported_catalog_entries c9store c9fs).fs
    ∧ ["d", "a", "z.png"] ∈ (prune_imported_catalog_entries c9store c9fs).fs
    ∧ [".trash", "a", "z.png"] ∉ (prune_imported_catalog_entries c9store c9fs).fs := by
  refine ⟨by decide, by decide, by decide, by decide, by decide⟩

/-- C9 amended: when the trash destination of a selected entry cannot be
computed, prune_imported_catalog_entries aborts at that entry with the error:
entries relocated before it keep their trashed files, but the entries after
the failing one are not relocated and no catalog row of the batch is removed
(the batch removal call is never reached), the rows of the already moved
entries included. -/
theorem C9_trash_path_failure_aborts (s : Store) (fs : PFS)
    (pre post : List CatalogEntry) (bad : CatalogEntry) (mb : String)
    (hsel : find_already_imported s = pre ++ bad :: post)
    (hpre : exceptIsOk (moveAll fs pre).result = true)
    (hbad : trash_path bad = .error mb) :
    (prune_imported_catalog_entries s fs).result = .error mb
    ∧ (prune_imported_catalog_entries s fs).store = s
    ∧ (prune_imported_catalog_entries s fs).fs = (moveAll fs pre).fs
    ∧ (prune_imported_catalog_entries s fs).trace = (moveAll fs pre).trace := by
  have hm := moveAll_fail_at bad mb hbad pre post fs hpre
  have hne : (find_already_imported s).isEmpty = false := by
    rw [hsel]
    cases pre <;> rfl
  simp [prune_imported_catalog_entries, hne, hsel, hm]

/-- C9 witness for the amended statement: the concrete three-entry run of the
counterexample, decomposed as one successfully moved entry, the failing
entry, and one entry left untouched. -/
theorem C9_witness :
    (prune_imported_catalog_entries c9store c9fs).result = .error "Invalid File"
    ∧ (prune_imported_catalog_entries c9store c9fs).store = c9store
    ∧ (prune_imported_catalog_entries c9store c9fs).fs = (moveAll c9fs [c9good]).fs
    ∧ (prune_imported_catalog_entries c9store c9fs).trace = (moveAll c9fs [c9good]).trace :=
  C9_trash_path_failure_aborts c9store c9fs [c9good] [c9later] c9bad "Invalid File"
    (by decide) (by decide) (by decide)

/-! ## Helper lemmas: the collision probe -/

theorem probeLoopRun_allOccupied :
    ∀ (fuel i : Nat) (base : List String) (stem ext : String),
      probeLoopRun allOccupied base stem ext i fuel = .stillRunning := by
  intro fuel
  induction fuel with
  | zero => intro i base stem ext; rfl
  | succ f ih =>
    intro i base stem ext
    simp only [probeLoopRun, allOccupied, namesNext, if_pos]
    exact ih (i + 1) base stem ext

theorem probeLoopRun_never_noUsableName (occ : List String → Bool)
    (base : List String) (stem ext : String) :
    ∀ (f i : Nat), probeLoopRun occ base stem ext i f ≠ .noUsableName := by
  intro f
  induction f with
  | zero => intro i h; cases h
  | succ f ih =>
    intro i
    by_cases h : occ (nthCandidate base stem ext i) = true
    · simp only [probeLoopRun, h, namesNext, if_pos]
      exact ih (i + 1)
    · rw [Bool.not_eq_true] at h
      simp [probeLoopRun, h]

theorem probeLoopRun_finds (occ : List String → Bool) (base : List String)
    (stem ext : String) :
    ∀ (fuel i n : Nat), i ≤ n → n < i + fuel →
      occ (nthCandidate base stem ext n) = false →
      (∀ m, i ≤ m → m < n → occ (nthCandidate base stem ext m) = true) →
      probeLoopRun occ base stem ext i fuel = .found (nthCandidate base stem ext n) := by
  intro fuel
  induction fuel with
  | zero => intro i n hin hlt _ _; omega
  | succ f ih =>
    intro i n hin hlt hfree hocc
    by_cases hi : i = n
    · subst hi
      simp [probeLoopRun, hfree]
    · have hlt2 : i < n := Nat.lt_of_le_of_ne hin hi
      have h1 : occ (nthCandidate base stem ext i) = true := hocc i (Nat.le_refl i) hlt2
      simp only [probeLoopRun, h1, namesNext, if_pos]
      exact ih (i + 1) n hlt2 (by omega) hfree (fun m hm1 hm2 => hocc m (by omega) hm2)

/-! ## C8: the collision probe has no exhaustion bound -/

/-- C8 counterexample: on a disk where every probed name is in use, the probe
is still running after every finite number of loop iterations: for no
iteration budget does it terminate, and in particular it never returns the
no-usable-name error, because the suffix iterator never reports exhaustion. -/
theorem C8_counterexample : probesForeverOn allOccupied dateBase "x" "jpg" := by
  intro fuel
  exact probeLoopRun_allOccupied fuel 0 dateBase "x" "jpg"

/-- C8 amended: the probe tries the base name and then the alternatives with
_1, _2 and so on appended to the stem, extension preserved, and returns the
first candidate not in use; but there is no finite exhaustion bound: the
error branch for an exhausted name iterator is unreachable (the loop never
yields the no-usable-name outcome), so on a disk where every candidate is in
use the probe does not terminate. -/
theorem C8_probe_first_unused (occ : List String → Bool) (base : List String)
    (stem ext : String) (n fuel : Nat)
    (hfree : occ (nthCandidate base stem ext n) = false)
    (hocc : ∀ m, m < n → occ (nthCandidate base stem ext m) = true)
    (hfuel : n < fuel) :
    unused_filename occ base stem ext fuel = .found (nthCandidate base stem ext n)
    ∧ ∀ f i, probeLoopRun occ base stem ext i f ≠ .noUsableName := by
  constructor
  · exact probeLoopRun_finds occ base stem ext fuel 0 n (Nat.zero_le n) (by omega)
      hfree (fun m _ hm2 => hocc m hm2)
  · intro f i
    exact probeLoopRun_never_noUsableName occ base stem ext f i

/-- C8 witness: the base name x.jpg is taken and x_1.jpg is free; the probe
returns x_1.jpg, and no iteration of it can return the no-usable-name
outcome. -/
theorem C8_witness :
    unused_filename c8occ dateBase "x" "jpg" 5
      = .found (nthCandidate dateBase "x" "jpg" 1)
    ∧ ∀ f i, probeLoopRun c8occ dateBase "x" "jpg" i f ≠ .noUsableName :=
  C8_probe_first_unused c8occ dateBase "x" "jpg" 1 5 (by decide)
    (fun m hm => by
      have hm0 : m = 0 := Nat.lt_one_iff.mp hm
      subst hm0
      decide)
    (by decide)

/-! ## C10: entries without stem or extension never reach the batch -/

/-- C10: a catalog entry whose path has no file stem or no file extension
fails the library placement (LibraryEntry try_from through
find_unused_library_path) even when its capture date is available, so the
entry contributes nothing to the import batch: removing it from any candidate
list leaves the import fold, its surviving entries and its file-system
effects unchanged. -/
theorem C10_missing_stem_or_ext_excluded (exif : String → Option Date)
    (w : List String → String) (fuel : Nat) (e : CatalogEntry) (d : Date)
    (hd : exif e.path = some d)
    (hbad : fileStemC (comps e.path) = none ∨ extensionC (comps e.path) = none) :
    (∀ fs1 : IFS, exceptIsOk (LibraryEntry.tryFrom exif fs1 fuel e) = false
      ∧ importOne exif w fuel fs1 e = (fs1, none))
    ∧ ∀ (fs0 : IFS) (xs ys : List CatalogEntry),
        importFold exif w fuel fs0 (xs ++ e :: ys)
          = importFold exif w fuel fs0 (xs ++ ys) := by
  have htf : ∀ fs1 : IFS, ∃ m, LibraryEntry.tryFrom exif fs1 fuel e = .error m := by
    intro fs1
    rcases hbad with hstem | hext
    · exact ⟨"Expected a file stem", by
        simp [LibraryEntry.tryFrom, hd, find_unused_library_path, hstem]⟩
    · cases hstem2 : fileStemC (comps e.path) with
      | none =>
        exact ⟨"Expected a file stem", by
          simp [LibraryEntry.tryFrom, hd, find_unused_library_path, hstem2]⟩
      | some stem =>
        exact ⟨"Expected a file extension", by
          simp [LibraryEntry.tryFrom, hd, find_unused_library_path, hstem2, hext]⟩
  have himp : ∀ fs1 : IFS, importOne exif w fuel fs1 e = (fs1, none) := by
    intro fs1
    obtain ⟨m, hm⟩ := htf fs1
    simp [importOne, hm]
  constructor
  · intro fs1
    obtain ⟨m, hm⟩ := htf fs1
    exact ⟨by simp [hm, exceptIsOk], himp fs1⟩
  · intro fs0 xs ys
    induction xs generalizing fs0 with
    | nil =>
      simp only [List.nil_append, importFold, himp fs0]
    | cons x xs ih =>
      simp only [List.cons_append, importFold, List.append_eq]
      rw [ih (importOne exif w fuel fs0 x).1]

/-- C10 witness: the entry d/photos/noext has a capture date but no file
extension; its placement fails and a batch with it imports exactly like the
batch without it. -/
theorem C10_witness :
    (∀ fs1 : IFS, exceptIsOk (LibraryEntry.tryFrom c10exif fs1 3 c10e) = false
      ∧ importOne c10exif c10w 3 fs1 c10e = (fs1, none))
    ∧ ∀ (fs0 : IFS) (xs ys : List CatalogEntry),
        importFold c10exif c10w 3 fs0 (xs ++ c10e :: ys)
          = importFold c10exif c10w 3 fs0 (xs ++ ys) :=
  C10_missing_stem_or_ext_excluded c10exif c10w 3 c10e ⟨2024, 1, 2⟩ (by decide)
    (Or.inr (by decide))

/-! ## C1: the post-copy digest check is vacuous -/

/-- C1: a full import run in which the copy corrupts the destination (the
digest of the bytes landing at the library destination is CORRUPTED, not the
source digest HASH1): the destination holds content whose digest differs from
the source catalog digest, yet the entry is not excluded: the batch commits
it and the library row is persisted. The check in copy_catalog_entry compares
the source digest with the sha256 field that LibraryEntry try_from copied
from the same catalog entry, and never re-reads the destination file. -/
theorem C1_corrupted_copy_committed :
    lookupFS (importCmd c1exif corruptWrite 5 c1fs c1store "d").2.1 c1dest
      = some "CORRUPTED"
    ∧ "CORRUPTED" ≠ "HASH1"
    ∧ (importCmd c1exif corruptWrite 5 c1fs c1store "d").1.1 = Except.ok 1
    ∧ LibraryEntry.mk "HASH1" c1dest
        ∈ ((importCmd c1exif corruptWrite 5 c1fs c1store "d").1.2).library := by
  refine ⟨by decide, by decide, by decide, by decide⟩

end PhotoWork
